import Mathlib

/-!
# Verification of the link-audit service's core semantics

Shallow embedding of the link-classification, priority-queue, job-id and
retry/dead-letter logic of the `services_lincor` repository, together with
theorems settling the specification claims about them.

Sources embedded:
* `LinkAnalyzer.findTargetLinks` (rel-token classification over all matches);
* `ScrapeDoService.extractLinksFromHtml` (proxy-fallback classification of the
  first hit, `api-gateway/src/services/queueService.ts`);
* `QueueService.calculateScore` / `processNextItem` (Redis sorted-set priority
  queue drained with `zPopMax`);
* `BullMQService.addLinkAnalysisJob` / `initialize` / `processLinkAnalysisJob`
  (job-id construction, duplicate suppression, retry/backoff configuration).
-/

namespace Lincor

/-- Link verdict classes produced by the analyser (`linkType` values in the
source: `dofollow`, `nofollow`, `sponsored`, `ugc`, `not_found`). -/
inductive LinkClass where
  | dofollow
  | nofollow
  | sponsored
  | ugc
  | not_found
deriving DecidableEq, Repr

/-- One candidate link kept by the DOM extraction pass: its resolved `href`,
its raw `rel` attribute (empty string when absent) and the carrier element's
`outerHTML` (`fullTag` in the source). -/
structure LinkMatch where
  href : String
  rel : String
  fullTag : String
deriving DecidableEq, Repr

/-- JS `String.prototype.includes` on character lists: `pat` occurs as a
contiguous substring of `s` (the empty pattern always occurs). -/
def charsInclude : List Char → List Char → Bool
  | [], pat => pat.isEmpty
  | c :: rest, pat => pat.isPrefixOf (c :: rest) || charsInclude rest pat

/-- JS `String.prototype.includes` lifted to `String`. -/
def strIncludes (s pat : String) : Bool :=
  charsInclude s.toList pat.toList

/-- JS `String.prototype.toLowerCase`, restricted to the ASCII range the rel
tokens live in; written over the character list so that it evaluates by
kernel reduction. -/
def jsToLower (s : String) : String :=
  ⟨s.toList.map Char.toLower⟩

/-- Result record of `LinkAnalyzer.findTargetLinks` and of
`ScrapeDoService.extractLinksFromHtml`: `{ found, linkType, fullATag? }`. -/
structure FindResult where
  found : Bool
  linkType : LinkClass
  fullATag : Option String
deriving DecidableEq, Repr

/-- Embeds the classification tail of `LinkAnalyzer.findTargetLinks`
(part_005, lines 606–641), applied to the candidate list the in-page
extraction produced.  The source's two final returns (`if hasDofollow`
return dofollow; default return dofollow) are collapsed into the single
`else` branch, which is value-identical. -/
def findTargetLinksClassify (links : List LinkMatch) : FindResult :=
  if links.length = 0 then
    { found := false, linkType := .not_found, fullATag := none }
  else
    let hasNofollow := links.any fun l => strIncludes (jsToLower l.rel) "nofollow"
    let hasSponsored := links.any fun l => strIncludes (jsToLower l.rel) "sponsored"
    let hasUgc := links.any fun l => strIncludes (jsToLower l.rel) "ugc"
    let hasDofollow := links.any fun l => !strIncludes (jsToLower l.rel) "nofollow"
    let firstFullTag := ((links.head?).map LinkMatch.fullTag).getD ""
    if hasSponsored then
      { found := true, linkType := .sponsored, fullATag := some firstFullTag }
    else if hasUgc then
      { found := true, linkType := .ugc, fullATag := some firstFullTag }
    else if hasNofollow && !hasDofollow then
      { found := true, linkType := .nofollow, fullATag := some firstFullTag }
    else
      { found := true, linkType := .dofollow, fullATag := some firstFullTag }

/-- Embeds the classification tail of `ScrapeDoService.extractLinksFromHtml`
(queueService.ts, lines 1016–1042): `relValue` is the first capture of the
`rel` attribute regex on the first found link's tag (empty when the attribute
is missing); the source lowercases it before the `includes` tests. -/
def extractLinksClassify (relValue : String) : LinkClass :=
  let r := jsToLower relValue
  if strIncludes r "nofollow" then .nofollow
  else if strIncludes r "sponsored" then .sponsored
  else if strIncludes r "ugc" then .ugc
  else .dofollow

/-- The precedence stated by the specification for classification over the
union of rel tokens across all matches: `sponsored` wins, then `ugc`, then
`nofollow` when no sibling dofollow exists (every match carries `nofollow`),
otherwise `dofollow`. -/
def specPrecedence (rels : List String) : LinkClass :=
  if rels.any fun r => strIncludes (jsToLower r) "sponsored" then .sponsored
  else if rels.any fun r => strIncludes (jsToLower r) "ugc" then .ugc
  else if rels.all fun r => strIncludes (jsToLower r) "nofollow" then .nofollow
  else .dofollow

/-! ## Priority queue (`QueueService`, api-gateway) -/

/-- The fields of a `QueueItem` that the Redis sorted-set ordering consumes:
`priority` (1 = highest/enterprise … 4 = lowest/free) and
`createdAt.getTime()` in milliseconds.  `id` keeps items distinguishable. -/
structure QueueItem where
  id : String
  priority : Int
  createdAtMs : Int
deriving DecidableEq, Repr

/-- Embeds `QueueService.calculateScore` (queueService.ts, lines 420–426):
`-priority * 1e13 - ts`.  All values reachable at runtime
(priority 1–4, epoch-millisecond timestamps) stay far below `2^53`, where JS
number arithmetic is exact, so the integer model is faithful. -/
def calculateScore (priority : Int) (createdAtMs : Int) : Int :=
  -priority * 10000000000000 - createdAtMs

/-- Score of a queue item. -/
def itemScore (it : QueueItem) : Int :=
  calculateScore it.priority it.createdAtMs

/-- Embeds Redis `zPopMax` as used by `QueueService.processNextItem`
(queueService.ts, lines 197–238): remove and return the member with the
greatest score.  Among equal scores Redis picks the lexicographically
greatest member; the claims only concern strictly ordered scores, and this
model returns the first maximal item. -/
def zPopMax : List QueueItem → Option (QueueItem × List QueueItem)
  | [] => none
  | x :: xs =>
    match zPopMax xs with
    | none => some (x, [])
    | some (y, ys) => if itemScore x < itemScore y then some (y, x :: ys) else some (x, xs)

/-- The sequence of items handed to workers by repeatedly calling `zPopMax`,
with explicit fuel (taking `fuel = l.length` drains the whole queue). -/
def drainFuel : Nat → List QueueItem → List QueueItem
  | 0, _ => []
  | fuel + 1, l =>
    match zPopMax l with
    | none => []
    | some (x, l') => x :: drainFuel fuel l'


/-! ## Job ids and duplicate suppression (`BullMQService.addLinkAnalysisJob`) -/

/-- The job kinds accepted by the producers (`'manual' | 'google_sheets'`). -/
inductive JobKind where
  | manual
  | google_sheets
deriving DecidableEq, Repr

/-- The string each kind interpolates into the template literal. -/
def JobKind.str : JobKind → String
  | .manual => "manual"
  | .google_sheets => "google_sheets"

/-- Embeds the id template of `BullMQService.addLinkAnalysisJob`
(`id: \x60$\x7btype\x7d:$\x7burl\x7d\x60`): the job id is built from the kind
and the source url only. -/
def makeJobId (type : JobKind) (url : String) : String :=
  type.str ++ ":" ++ url

/-- The `jobData` payload assembled by `BullMQService.addLinkAnalysisJob`. -/
structure LinkAnalysisJobData where
  id : String
  type : JobKind
  userId : String
  projectId : String
  linkId : Option String
  sheetId : Option String
  url : String
  targetDomain : String
  priority : Int
  attempts : Nat
deriving DecidableEq, Repr

/-- Embeds the construction of `jobData` in `BullMQService.addLinkAnalysisJob`
(quick-deploy.sh, lines 186–233): every field is copied from the arguments,
`attempts` starts at 0 and `id = makeJobId type url`. -/
def mkJobData (type : JobKind) (userId projectId url targetDomain : String)
    (priority : Int) (linkId sheetId : Option String) : LinkAnalysisJobData :=
  { id := makeJobId type url
    type := type
    userId := userId
    projectId := projectId
    linkId := linkId
    sheetId := sheetId
    url := url
    targetDomain := targetDomain
    priority := priority
    attempts := 0 }

/-- Modelled from the spec: the queue library's `jobId`-keyed duplicate
suppression ("Deduplicates on `job_id` across the entire waiting set:
re-enqueueing an id already waiting is a no-op").  The source passes
`jobId: jobData.id` to `queue.add` precisely to invoke this behaviour; the
library implementing it is external to this repository. -/
def bullAdd (waiting : List LinkAnalysisJobData)
    (job : LinkAnalysisJobData) : List LinkAnalysisJobData :=
  if waiting.any fun j => j.id == job.id then waiting else waiting ++ [job]

/-- Embeds the id template of `QueueService.addToQueue`
(queueService.ts, lines 108–126): the id concatenates the kind string, an
underscore, the decimal rendering of `Date.now()`, an underscore, and the
random base-36 suffix produced by `Math.random().toString(36).substr(2, 9)`.
The clock reading and the random suffix are inputs of the call, not of the
job, so they appear here as explicit parameters. -/
def addToQueueId (type : JobKind) (nowMs : Nat) (rand : String) : String :=
  type.str ++ "_" ++ toString nowMs ++ "_" ++ rand

/-- The `queueItem` record `QueueService.addToQueue` serialises into the
Redis sorted set.  `JSON.stringify` renders every field, hence is injective
on these records, so the record itself stands for the serialised member. -/
structure AddToQueueItem where
  id : String
  type : JobKind
  userId : String
  projectId : String
  linkId : Option String
  sheetId : Option String
  url : String
  targetDomain : String
  priority : Int
  createdAtMs : Nat
  attempts : Nat
  maxAttempts : Nat
deriving DecidableEq, Repr

/-- Embeds the construction of `queueItem` in `QueueService.addToQueue`:
every field from the arguments, `attempts = 0`, `maxAttempts = 3`, the id
from `addToQueueId`, and `createdAt` from the call-time clock (the source
reads the clock once for the id and once for `createdAt` within the same
call; one `nowMs` parameter models both readings). -/
def mkAddToQueueItem (type : JobKind) (userId projectId url targetDomain : String)
    (priority : Int) (linkId sheetId : Option String)
    (nowMs : Nat) (rand : String) : AddToQueueItem :=
  { id := addToQueueId type nowMs rand
    type := type
    userId := userId
    projectId := projectId
    linkId := linkId
    sheetId := sheetId
    url := url
    targetDomain := targetDomain
    priority := priority
    createdAtMs := nowMs
    attempts := 0
    maxAttempts := 3 }

/-- Embeds the enqueue step of `QueueService.addToQueue`: a plain Redis
`zAdd` of the serialised item into the sorted set.  `ZADD` of a member
already present only updates its score; a new member is inserted.  There is
no id-keyed duplicate suppression on this path. -/
def addToQueueEnqueue (waiting : List AddToQueueItem)
    (item : AddToQueueItem) : List AddToQueueItem :=
  if item ∈ waiting then waiting else waiting ++ [item]

/-! ## Retry, backoff and dead-lettering (`BullMQService`) -/

/-- The value `processLinkAnalysisJob` resolves with
(`AnalysisJobResult` in the source): a success flag, the analyser result on
success and the error message on failure. -/
structure AnalysisJobResult (R : Type) where
  success : Bool
  result : Option R
  error : Option String
deriving DecidableEq, Repr

/-- `MAX_ATTEMPTS = 3` from `BullMQService`. -/
def MAX_ATTEMPTS : Nat := 3

/-- `BACKOFF_DELAY = 2000` milliseconds from `BullMQService`. -/
def BACKOFF_DELAY : Nat := 2000

/-- Embeds `BullMQService.processLinkAnalysisJob` (quick-deploy.sh,
lines 238–306): the whole body sits in one try/catch; on analyser success it
returns `{success: true, result}`, and on any thrown error the catch block
returns `{success: false, error}` normally — no branch rethrows.
`analysis` stands for the outcome of `LinkAnalyzer.analyzeLink`
(persistence and socket emission are side effects that do not affect the
returned value). -/
def processLinkAnalysisJob {R : Type} (analysis : Except String R) :
    AnalysisJobResult R :=
  match analysis with
  | .ok r => { success := true, result := some r, error := none }
  | .error e => { success := false, result := none, error := some e }

/-- The processor as the queue sees it: an `Except` capturing whether the
handler threw.  `processLinkAnalysisJob` returns on every path, so the
lifted processor is always `.ok`. -/
def runProcessor {R : Type} (analysis : Except String R) :
    Except String (AnalysisJobResult R) :=
  .ok (processLinkAnalysisJob analysis)

/-- Outcome of one processing attempt as recorded by the queue. -/
inductive JobOutcome (R : Type) where
  | completed (r : AnalysisJobResult R)
  | retried (delayMs : Nat)
  | deadLettered (error : String)
deriving DecidableEq, Repr

/-- Modelled from the spec: the queue's reaction to one processing attempt
(§4.1 `Fail`; the queue library is external to this repository).  A thrown
error is retried with exponential backoff `base * 2^attempts` while
`attempts + 1 < max_attempts`, otherwise moved to the dead-letter/failed
store; a normal return records the job as completed.  This is exactly the
machinery `BullMQService.initialize` configures with
`attempts: MAX_ATTEMPTS, backoff: exponential BACKOFF_DELAY`. -/
def bullStep {R : Type} (maxAttempts attemptsMade : Nat)
    (processor : Except String (AnalysisJobResult R)) : JobOutcome R :=
  match processor with
  | .ok r => .completed r
  | .error e =>
    if attemptsMade + 1 < maxAttempts then
      .retried (BACKOFF_DELAY * 2 ^ attemptsMade)
    else
      .deadLettered e

/-! ## Theorems -/

/-- `any` over a mapped list, for a type-changing map. -/
theorem any_map_general {α β : Type} (f : α → β) (l : List α) (p : β → Bool) :
    (l.map f).any p = l.any fun x => p (f x) := by
  induction l with
  | nil => rfl
  | cons a as ih => simp [List.any_cons, ih]

/-- `all` over a mapped list, for a type-changing map. -/
theorem all_map_general {α β : Type} (f : α → β) (l : List α) (p : β → Bool) :
    (l.map f).all p = l.all fun x => p (f x) := by
  induction l with
  | nil => rfl
  | cons a as ih => simp [List.all_cons, ih]

/-- On a non-empty list, the source's guard `hasNofollow && !hasDofollow`
(some match carries the token and none lacks it) coincides with "every match
carries the token". -/
theorem any_and_not_any_not {α : Type} (p : α → Bool) (l : List α) (h : l ≠ []) :
    (l.any p && !(l.any fun x => !p x)) = l.all p := by
  cases hA : l.any p with
  | false =>
    obtain ⟨a, as, rfl⟩ := List.exists_cons_of_ne_nil h
    rw [List.any_eq_false] at hA
    have : p a = false := by simpa using hA a (by simp)
    simp [List.all_cons, this]
  | true =>
    simp only [Bool.true_and]
    cases hN : (l.any fun x => !p x) with
    | false =>
      rw [List.any_eq_false] at hN
      have : l.all p = true := List.all_eq_true.mpr fun x hx => by simpa using hN x hx
      simp [this]
    | true =>
      rw [List.any_eq_true] at hN
      obtain ⟨x, hx, hpx⟩ := hN
      have : l.all p = false := by
        rw [List.all_eq_false]
        exact ⟨x, hx, by simpa using hpx⟩
      simp [this]

/-- The DOM-pass classification agrees with the specification's precedence
chain on every non-empty candidate list. -/
theorem findTargetLinksClassify_eq_specPrecedence (links : List LinkMatch)
    (h : links ≠ []) :
    findTargetLinksClassify links =
      { found := true,
        linkType := specPrecedence (links.map LinkMatch.rel),
        fullATag := some (((links.head?).map LinkMatch.fullTag).getD "") } := by
  unfold findTargetLinksClassify specPrecedence
  rw [if_neg (by simpa [List.length_eq_zero] using h)]
  simp only [any_map_general, all_map_general]
  rw [← apply_ite (fun lt : LinkClass =>
        ({ found := true, linkType := lt,
           fullATag := some (((links.head?).map LinkMatch.fullTag).getD "") } : FindResult)),
      ← apply_ite (fun lt : LinkClass =>
        ({ found := true, linkType := lt,
           fullATag := some (((links.head?).map LinkMatch.fullTag).getD "") } : FindResult)),
      ← apply_ite (fun lt : LinkClass =>
        ({ found := true, linkType := lt,
           fullATag := some (((links.head?).map LinkMatch.fullTag).getD "") } : FindResult))]
  rw [any_and_not_any_not (fun l => strIncludes (jsToLower l.rel) "nofollow") links h]

/-- C1: the claim asserts the proxy-fallback extractor classifies with the
same precedence as the DOM pass.  It does not: on the rel value
`"nofollow sponsored"` the DOM pass (`LinkAnalyzer.findTargetLinks`) returns
`sponsored`, while the proxy extractor (`ScrapeDoService.extractLinksFromHtml`)
checks `nofollow` first and returns `nofollow`. -/
theorem C1_counterexample_proxy_precedence :
    (findTargetLinksClassify [⟨"https://target.com/x", "nofollow sponsored",
        "<a rel=\"nofollow sponsored\" href=\"https://target.com/x\">x</a>"⟩]).linkType
        = LinkClass.sponsored ∧
    extractLinksClassify "nofollow sponsored" = LinkClass.nofollow ∧
    LinkClass.sponsored ≠ LinkClass.nofollow := by
  exact ⟨by decide, by decide, by decide⟩

/-- C1 (amended): on every analysed page with at least one candidate link,
the DOM-pass classification inspects the union of rel tokens across all
matches with the precedence sponsored ≻ ugc ≻ nofollow (when no sibling
dofollow exists) ≻ dofollow; the proxy-fallback extractor classifies the
first hit with nofollow checked first: it agrees with that precedence
exactly when the first hit's rel carries no `nofollow` token, and returns
`nofollow` whenever the token is present, regardless of `sponsored`/`ugc`. -/
theorem C1_classification_precedence :
    (∀ links : List LinkMatch, links ≠ [] →
        findTargetLinksClassify links =
          { found := true,
            linkType := specPrecedence (links.map LinkMatch.rel),
            fullATag := some (((links.head?).map LinkMatch.fullTag).getD "") }) ∧
    (∀ rel : String, strIncludes (jsToLower rel) "nofollow" = false →
        extractLinksClassify rel = specPrecedence [rel]) ∧
    (∀ rel : String, strIncludes (jsToLower rel) "nofollow" = true →
        extractLinksClassify rel = LinkClass.nofollow) := by
  refine ⟨findTargetLinksClassify_eq_specPrecedence, ?_, ?_⟩
  · intro rel hno
    unfold extractLinksClassify specPrecedence
    simp [hno]
  · intro rel hno
    unfold extractLinksClassify
    simp [hno]

/-- Witness instantiating `C1_classification_precedence` at concrete inputs. -/
theorem C1_classification_precedence_witness :
    findTargetLinksClassify [⟨"https://t.com/a", "sponsored ugc", "<a>"⟩] =
      { found := true,
        linkType := specPrecedence ([(⟨"https://t.com/a", "sponsored ugc", "<a>"⟩ :
            LinkMatch)].map LinkMatch.rel),
        fullATag := some ((([(⟨"https://t.com/a", "sponsored ugc", "<a>"⟩ :
            LinkMatch)].head?).map LinkMatch.fullTag).getD "") } ∧
    extractLinksClassify "Sponsored" = specPrecedence ["Sponsored"] ∧
    extractLinksClassify "ugc NoFollow" = LinkClass.nofollow :=
  ⟨C1_classification_precedence.1 [⟨"https://t.com/a", "sponsored ugc", "<a>"⟩]
      (by decide),
   C1_classification_precedence.2.1 "Sponsored" (by decide),
   C1_classification_precedence.2.2 "ugc NoFollow" (by decide)⟩

/-- `zPopMax` yields nothing exactly on the empty queue. -/
theorem zPopMax_eq_none {l : List QueueItem} : zPopMax l = none ↔ l = [] := by
  cases l with
  | nil => simp [zPopMax]
  | cons a as =>
    rw [zPopMax]
    cases h : zPopMax as with
    | none => simp
    | some p =>
      obtain ⟨y, ys⟩ := p
      by_cases hc : itemScore a < itemScore y <;> simp [hc]

/-- `zPopMax` returns an element of the queue. -/
theorem zPopMax_mem {l : List QueueItem} {x : QueueItem} {l' : List QueueItem}
    (h : zPopMax l = some (x, l')) : x ∈ l := by
  induction l generalizing x l' with
  | nil => simp [zPopMax] at h
  | cons a as ih =>
    rw [zPopMax] at h
    cases hr : zPopMax as with
    | none =>
      rw [hr] at h
      dsimp only at h
      simp only [Option.some.injEq, Prod.mk.injEq] at h
      obtain ⟨rfl, rfl⟩ := h
      exact List.mem_cons_self a as
    | some p =>
      obtain ⟨y, ys⟩ := p
      rw [hr] at h
      dsimp only at h
      by_cases hc : itemScore a < itemScore y
      · rw [if_pos hc] at h
        simp only [Option.some.injEq, Prod.mk.injEq] at h
        obtain ⟨rfl, rfl⟩ := h
        exact List.mem_cons_of_mem a (ih hr)
      · rw [if_neg hc] at h
        simp only [Option.some.injEq, Prod.mk.injEq] at h
        obtain ⟨rfl, rfl⟩ := h
        exact List.mem_cons_self a as

/-- `zPopMax` returns an item of maximal score. -/
theorem zPopMax_max {l : List QueueItem} {x : QueueItem} {l' : List QueueItem}
    (h : zPopMax l = some (x, l')) : ∀ a ∈ l, itemScore a ≤ itemScore x := by
  induction l generalizing x l' with
  | nil => simp [zPopMax] at h
  | cons b bs ih =>
    rw [zPopMax] at h
    intro a ha
    cases hr : zPopMax bs with
    | none =>
      rw [hr] at h
      dsimp only at h
      simp only [Option.some.injEq, Prod.mk.injEq] at h
      obtain ⟨rfl, rfl⟩ := h
      have hbs : bs = [] := zPopMax_eq_none.mp hr
      subst hbs
      rcases List.mem_singleton.mp (by simpa using ha) with rfl
      exact le_refl _
    | some p =>
      obtain ⟨y, ys⟩ := p
      rw [hr] at h
      dsimp only at h
      by_cases hc : itemScore b < itemScore y
      · rw [if_pos hc] at h
        simp only [Option.some.injEq, Prod.mk.injEq] at h
        obtain ⟨rfl, rfl⟩ := h
        rcases List.mem_cons.mp ha with rfl | has
        · exact le_of_lt hc
        · exact ih hr a has
      · rw [if_neg hc] at h
        simp only [Option.some.injEq, Prod.mk.injEq] at h
        obtain ⟨rfl, rfl⟩ := h
        rcases List.mem_cons.mp ha with rfl | has
        · exact le_refl _
        · exact le_trans (ih hr a has) (not_lt.mp hc)

/-- Removing the popped item loses no other member: everything in the
queue is either the popped item or still present afterwards. -/
theorem zPopMax_rest {l : List QueueItem} {x : QueueItem} {l' : List QueueItem}
    (h : zPopMax l = some (x, l')) : ∀ a ∈ l, a = x ∨ a ∈ l' := by
  induction l generalizing x l' with
  | nil => simp [zPopMax] at h
  | cons b bs ih =>
    rw [zPopMax] at h
    intro a ha
    cases hr : zPopMax bs with
    | none =>
      rw [hr] at h
      dsimp only at h
      simp only [Option.some.injEq, Prod.mk.injEq] at h
      obtain ⟨rfl, rfl⟩ := h
      have hbs : bs = [] := zPopMax_eq_none.mp hr
      subst hbs
      rcases List.mem_singleton.mp (by simpa using ha) with rfl
      exact Or.inl rfl
    | some p =>
      obtain ⟨y, ys⟩ := p
      rw [hr] at h
      dsimp only at h
      by_cases hc : itemScore b < itemScore y
      · rw [if_pos hc] at h
        simp only [Option.some.injEq, Prod.mk.injEq] at h
        obtain ⟨rfl, rfl⟩ := h
        rcases List.mem_cons.mp ha with rfl | has
        · exact Or.inr (List.mem_cons_self a ys)
        · rcases ih hr a has with rfl | hmem
          · exact Or.inl rfl
          · exact Or.inr (List.mem_cons_of_mem b hmem)
      · rw [if_neg hc] at h
        simp only [Option.some.injEq, Prod.mk.injEq] at h
        obtain ⟨rfl, rfl⟩ := h
        rcases List.mem_cons.mp ha with rfl | has
        · exact Or.inl rfl
        · exact Or.inr has

/-- Under the runtime bounds on timestamps, a strictly better ordering key —
lower priority number, or equal priority with an earlier enqueue time —
yields a strictly greater sorted-set score. -/
theorem calculateScore_strict {A B : QueueItem}
    (hA0 : 0 ≤ A.createdAtMs) (hA1 : A.createdAtMs < 10000000000000)
    (hB0 : 0 ≤ B.createdAtMs) (hB1 : B.createdAtMs < 10000000000000)
    (hord : A.priority < B.priority ∨
      (A.priority = B.priority ∧ A.createdAtMs < B.createdAtMs)) :
    itemScore B < itemScore A := by
  unfold itemScore calculateScore
  rcases hord with hp | ⟨hp, ht⟩
  · have h1 : (1 : Int) ≤ B.priority - A.priority := by omega
    nlinarith
  · rw [hp]
    omega

/-- C2: for every two jobs waiting in the priority queue, a strictly lower
priority number is leased first, and at equal priorities the job with the
earlier enqueue time (`createdAt`) is leased first: in the drain order
produced by repeated `zPopMax` over `calculateScore`, whenever B appears, A
appears strictly earlier.  Timestamps are assumed non-negative and below
`1e13` (epoch milliseconds stay below that bound until the year 2286),
which is what keeps the priority bands of `calculateScore` disjoint. -/
theorem C2_priority_then_fifo_lease_order (A B : QueueItem)
    (hA0 : 0 ≤ A.createdAtMs) (hA1 : A.createdAtMs < 10000000000000)
    (hB0 : 0 ≤ B.createdAtMs) (hB1 : B.createdAtMs < 10000000000000)
    (hord : A.priority < B.priority ∨
      (A.priority = B.priority ∧ A.createdAtMs < B.createdAtMs)) :
    ∀ (fuel : Nat) (l : List QueueItem), A ∈ l →
      ∀ j, (drainFuel fuel l).get? j = some B →
        ∃ i, i < j ∧ (drainFuel fuel l).get? i = some A := by
  have hscore : itemScore B < itemScore A :=
    calculateScore_strict hA0 hA1 hB0 hB1 hord
  intro fuel
  induction fuel with
  | zero =>
    intro l _ j hj
    simp [drainFuel] at hj
  | succ n ih =>
    intro l hA j hj
    rw [drainFuel] at hj
    cases hz : zPopMax l with
    | none =>
      rw [hz] at hj
      simp at hj
    | some p =>
      obtain ⟨x, l'⟩ := p
      rw [hz] at hj
      dsimp only at hj
      have hxA : itemScore A ≤ itemScore x := zPopMax_max hz A hA
      have hxB : x ≠ B := by
        rintro rfl
        exact absurd (lt_of_lt_of_le hscore hxA) (lt_irrefl _)
      cases j with
      | zero =>
        rw [List.get?_cons_zero] at hj
        exact absurd (Option.some.injEq .. ▸ hj) hxB
      | succ j' =>
        rw [List.get?_cons_succ] at hj
        rcases zPopMax_rest hz A hA with rfl | hA'
        · exact ⟨0, Nat.succ_pos j', by
            rw [drainFuel, hz]
            rfl⟩
        · obtain ⟨i, hij, hget⟩ := ih l' hA' j' hj
          refine ⟨i + 1, Nat.succ_lt_succ hij, ?_⟩
          rw [drainFuel, hz]
          simpa using hget

/-- Witness instantiating `C2_priority_then_fifo_lease_order`: the
enterprise job (priority 1, enqueued at t=100) is leased before the free
job (priority 4, enqueued at t=50) although the free job was enqueued
first. -/
theorem C2_priority_then_fifo_lease_order_witness :
    ∃ i, i < 1 ∧
      (drainFuel 2 [⟨"jobB", 4, 50⟩, ⟨"jobA", 1, 100⟩]).get? i =
        some ⟨"jobA", 1, 100⟩ :=
  C2_priority_then_fifo_lease_order ⟨"jobA", 1, 100⟩ ⟨"jobB", 4, 50⟩
    (by decide) (by decide) (by decide) (by decide) (Or.inl (by decide))
    2 [⟨"jobB", 4, 50⟩, ⟨"jobA", 1, 100⟩] (by decide) 1 (by decide)

/-- Appending the same non-empty plain string on the left preserves
distinctness of the tails. -/
theorem string_append_left_cancel {p u v : String} (h : p ++ u = p ++ v) :
    u = v := by
  have hd := congrArg String.data h
  rw [String.data_append, String.data_append] at hd
  exact String.ext (List.append_cancel_left hd)

/-- C3: the claim fails on both producers it cites.  On the BullMQ producer
(`BullMQService.addLinkAnalysisJob`) the id template uses only the kind and
the url, so two enqueues that differ exclusively in the project id collide.
On the Redis producer (`QueueService.addToQueue`) the id is built from the
kind, the enqueue-time clock and a random suffix, so two enqueues with the
*same* kind, source URL and project id — here at clock readings 1000 and
1001 — get different ids, and its plain `zAdd` re-enqueue is not a no-op:
the waiting set grows. -/
theorem C3_counterexample_project_id_ignored :
    ((mkJobData .manual "user1" "projectA" "https://example.com/page"
        "target.com" 1 none none).id =
      (mkJobData .manual "user1" "projectB" "https://example.com/page"
        "target.com" 1 none none).id ∧
      "projectA" ≠ "projectB") ∧
    (mkAddToQueueItem .google_sheets "user1" "projectA"
        "https://example.com/page" "target.com" 1 none none
        1000 "k3j9x1q2z").id ≠
      (mkAddToQueueItem .google_sheets "user1" "projectA"
        "https://example.com/page" "target.com" 1 none none
        1001 "k3j9x1q2z").id ∧
    addToQueueEnqueue
        [mkAddToQueueItem .google_sheets "user1" "projectA"
          "https://example.com/page" "target.com" 1 none none
          1000 "k3j9x1q2z"]
        (mkAddToQueueItem .google_sheets "user1" "projectA"
          "https://example.com/page" "target.com" 1 none none
          1001 "k3j9x1q2z") =
      [mkAddToQueueItem .google_sheets "user1" "projectA"
          "https://example.com/page" "target.com" 1 none none
          1000 "k3j9x1q2z",
        mkAddToQueueItem .google_sheets "user1" "projectA"
          "https://example.com/page" "target.com" 1 none none
          1001 "k3j9x1q2z"] :=
  ⟨⟨rfl, by decide⟩, by decide, by decide⟩

/-- C3 (amended): job-id determinism is producer-specific and never involves
the project id.  On the BullMQ producer the id is deterministic from the
pair (kind, source_url): it equals `makeJobId kind url` whatever the other
arguments are, two enqueues agree on the id exactly when they agree on the
kind and the url, and re-enqueueing an id already in the waiting set leaves
the waiting set unchanged.  On the Redis producer the id is determined by
the kind, the call-time clock reading and the random suffix alone — the
source URL and the project id do not enter — and the plain `zAdd` enqueue
has no duplicate suppression: enqueueing a member not already present always
appends it to the waiting set. -/
theorem C3_job_id_determined_by_kind_and_url :
    (∀ (type : JobKind) (userId projectId url targetDomain : String)
        (priority : Int) (linkId sheetId : Option String),
        (mkJobData type userId projectId url targetDomain
          priority linkId sheetId).id = makeJobId type url) ∧
    (∀ (t₁ t₂ : JobKind) (u₁ u₂ : String),
        makeJobId t₁ u₁ = makeJobId t₂ u₂ ↔ t₁ = t₂ ∧ u₁ = u₂) ∧
    (∀ (waiting : List LinkAnalysisJobData) (job : LinkAnalysisJobData),
        job.id ∈ waiting.map LinkAnalysisJobData.id →
        bullAdd waiting job = waiting) ∧
    (∀ (type : JobKind) (nowMs : Nat) (rand : String)
        (userId₁ projectId₁ url₁ targetDomain₁ : String) (priority₁ : Int)
        (linkId₁ sheetId₁ : Option String)
        (userId₂ projectId₂ url₂ targetDomain₂ : String) (priority₂ : Int)
        (linkId₂ sheetId₂ : Option String),
        (mkAddToQueueItem type userId₁ projectId₁ url₁ targetDomain₁
          priority₁ linkId₁ sheetId₁ nowMs rand).id =
        (mkAddToQueueItem type userId₂ projectId₂ url₂ targetDomain₂
          priority₂ linkId₂ sheetId₂ nowMs rand).id) ∧
    (∀ (waiting : List AddToQueueItem) (item : AddToQueueItem),
        item ∉ waiting →
        addToQueueEnqueue waiting item = waiting ++ [item]) := by
  refine ⟨fun _ _ _ _ _ _ _ _ => rfl, ?_, ?_,
    fun _ _ _ _ _ _ _ _ _ _ _ _ _ _ _ _ _ => rfl,
    fun waiting item h => by rw [addToQueueEnqueue, if_neg h]⟩
  · intro t₁ t₂ u₁ u₂
    constructor
    · intro h
      cases t₁ <;> cases t₂
      · exact ⟨rfl, string_append_left_cancel h⟩
      · exfalso
        have hd := congrArg String.data h
        simp only [makeJobId, JobKind.str, String.data_append, List.append_assoc] at hd
        simp only [List.cons_append] at hd
        injection hd with h1 _
        exact absurd h1 (by decide)
      · exfalso
        have hd := congrArg String.data h
        simp only [makeJobId, JobKind.str, String.data_append, List.append_assoc] at hd
        simp only [List.cons_append] at hd
        injection hd with h1 _
        exact absurd h1 (by decide)
      · exact ⟨rfl, string_append_left_cancel h⟩
    · rintro ⟨rfl, rfl⟩
      rfl
  · intro waiting job hmem
    rw [bullAdd, if_pos]
    rw [List.mem_map] at hmem
    obtain ⟨a, ha, hid⟩ := hmem
    exact List.any_eq_true.mpr ⟨a, ha, by simp [hid]⟩

/-- Witness instantiating `C3_job_id_determined_by_kind_and_url` at concrete
inputs: on the BullMQ side a second enqueue of the same (kind, url) from a
different user, project and priority is dropped by the id-keyed dedup — the
waiting set is unchanged; on the Redis side enqueueing a fresh member
appends it — the waiting set grows. -/
theorem C3_job_id_determined_witness :
    bullAdd [mkJobData .manual "user1" "projectA" "https://example.com/page"
        "target.com" 1 none none]
      (mkJobData .manual "user2" "projectB" "https://example.com/page"
        "target.com" 4 none none) =
    [mkJobData .manual "user1" "projectA" "https://example.com/page"
        "target.com" 1 none none] ∧
    addToQueueEnqueue
        [mkAddToQueueItem .manual "user1" "projectA"
          "https://example.com/page" "target.com" 1 none none 1000 "a1b2c3d4e"]
        (mkAddToQueueItem .manual "user1" "projectA"
          "https://example.com/page" "target.com" 1 none none 1002 "f5g6h7i8j") =
      [mkAddToQueueItem .manual "user1" "projectA"
          "https://example.com/page" "target.com" 1 none none 1000 "a1b2c3d4e"] ++
        [mkAddToQueueItem .manual "user1" "projectA"
          "https://example.com/page" "target.com" 1 none none 1002 "f5g6h7i8j"] :=
  ⟨C3_job_id_determined_by_kind_and_url.2.2.1
    [mkJobData .manual "user1" "projectA" "https://example.com/page"
        "target.com" 1 none none]
    (mkJobData .manual "user2" "projectB" "https://example.com/page"
        "target.com" 4 none none)
    (by decide),
   C3_job_id_determined_by_kind_and_url.2.2.2.2
    [mkAddToQueueItem .manual "user1" "projectA"
        "https://example.com/page" "target.com" 1 none none 1000 "a1b2c3d4e"]
    (mkAddToQueueItem .manual "user1" "projectA"
        "https://example.com/page" "target.com" 1 none none 1002 "f5g6h7i8j")
    (by decide)⟩

/-- C4: the claim (and the configuration in `BullMQService.initialize`)
requires a failing job to be retried with exponential backoff and finally
dead-lettered, never recorded as completed.  The code violates it: because
`processLinkAnalysisJob` catches every error and returns normally, a job
whose analysis throws is recorded by the queue as completed (with
`success = false` buried in the payload) on whatever attempt it is —
while the very same configured machinery would have retried a first-attempt
failure after 2000 ms and dead-lettered a third-attempt failure had the
error been rethrown. -/
theorem C4_failed_analysis_recorded_completed :
    ∀ (e : String) (attemptsMade : Nat),
      bullStep (R := Unit) MAX_ATTEMPTS attemptsMade (runProcessor (.error e)) =
        .completed { success := false, result := none, error := some e } ∧
      bullStep (R := Unit) MAX_ATTEMPTS 0 (.error e) = .retried 2000 ∧
      bullStep (R := Unit) MAX_ATTEMPTS 2 (.error e) = .deadLettered e := by
  intro e attemptsMade
  exact ⟨rfl, rfl, rfl⟩

end Lincor
